import Mathlib

/-!
Verification of the mini-mart market-data core against its specification.

The definitions below are a shallow embedding of the C++ sources:

* `SpscRing` embeds `mini_mart::common::SpscRing<T, N>`
  (src/include/common/spsc_ring.hpp).  The two `size_t` counters are
  modelled as `Nat` (they are monotonically increasing from 0 and the code
  relies on `tail - head` staying inside `[0, N]`, so no wrap occurs on any
  reachable state); the `N`-slot storage is a list of `Option α`, where
  `some v` is a slot holding a live element and `none` is raw storage
  (elements are constructed on push and destroyed on pop).
* `SecurityStore`, `SecurityData`, `MarketDataL2Message` embed the types in
  src/include/market_data/security_store.hpp and
  src/include/types/messages.hpp.
* `RandomProvider` embeds the slot table of
  src/include/market_data/random_market_data_provider.hpp, and
  `MarketDataFeed.subscribe` embeds
  src/include/market_data/market_data_feed.hpp.
* `create_security_id` / `security_id_to_string` embed
  src/include/market_data/security_seeder.hpp; byte strings are `List Nat`.

Sequential executions model the operations' effects; the per-slot claim
protocol of the store is additionally given a two-thread interleaving
model (`ClaimSystem`) to settle the concurrency claim about it.
-/

namespace MiniMart

/-- State of `SpscRing<T, N>`: consumer counter `head`, producer counter
`tail`, and the `N`-slot buffer.  A slot holds `some v` when a live element
is stored in it and `none` when its storage is empty. -/
structure SpscRing (α : Type) (N : Nat) where
  head : Nat
  tail : Nat
  buffer : List (Option α)
deriving DecidableEq

/-- The freshly constructed ring: `head = tail = 0`, all storage empty. -/
def SpscRing.init (α : Type) (N : Nat) : SpscRing α N :=
  ⟨0, 0, List.replicate N none⟩

/-- `SpscRing::size()`: `tail - head`. -/
def SpscRing.size {α : Type} {N : Nat} (st : SpscRing α N) : Nat :=
  st.tail - st.head

/-- `SpscRing::emplace_impl` (src/include/common/spsc_ring.hpp:106-119):
fails iff `tail - head == capacity`; otherwise constructs the value into
the slot at `tail & mask` (`mask = N - 1`) and increments `tail`. -/
def SpscRing.emplace_impl {α : Type} {N : Nat} (st : SpscRing α N) (v : α) :
    Bool × SpscRing α N :=
  if st.tail - st.head == N then
    (false, st)
  else
    (true, { st with buffer := st.buffer.set (st.tail &&& (N - 1)) (some v),
                     tail := st.tail + 1 })

/-- `SpscRing::try_push` forwards to `emplace_impl`. -/
def SpscRing.try_push {α : Type} {N : Nat} (st : SpscRing α N) (v : α) :
    Bool × SpscRing α N :=
  SpscRing.emplace_impl st v

/-- `SpscRing::try_pop` (src/include/common/spsc_ring.hpp:72-99): fails iff
`head == tail`, leaving the out-parameter untouched; otherwise moves the
element at `head & mask` into the out-parameter, destroys the slot and
increments `head`.  Result is `(returned bool, out-parameter, new state)`. -/
def SpscRing.try_pop {α : Type} {N : Nat} (st : SpscRing α N) (out : α) :
    Bool × α × SpscRing α N :=
  if st.head == st.tail then
    (false, out, st)
  else
    let idx := st.head &&& (N - 1)
    let elem := st.buffer.getD idx none
    (true, elem.getD out,
      { st with buffer := st.buffer.set idx none, head := st.head + 1 })

/-- Ghost view: the queue contents, oldest first — the slots at positions
`head % N, (head+1) % N, …, (tail-1) % N`. -/
def SpscRing.contents {α : Type} {N : Nat} (st : SpscRing α N) :
    List (Option α) :=
  (List.range (st.tail - st.head)).map
    (fun j => st.buffer.getD ((st.head + j) % N) none)

/-- Well-formedness of a ring state: counters ordered and within capacity,
buffer of the right length, and every queued slot holding a live element. -/
def SpscRing.wf {α : Type} {N : Nat} (st : SpscRing α N) : Prop :=
  st.head ≤ st.tail ∧ st.tail ≤ st.head + N ∧ st.buffer.length = N ∧
    ∀ e ∈ st.contents, e.isSome = true

/-- One producer/consumer operation for a sequential execution. -/
inductive RingOp (α : Type) where
  | push (v : α)
  | pop
deriving DecidableEq

/-- Run a sequence of operations; returns the final state, the list of
values carried by the successful pushes (in order), and the list of values
returned by the successful pops (in order).  A pop's out-parameter is
seeded with `default`, matching the junk value `T tmp` a caller passes. -/
def runOps {α : Type} {N : Nat} [Inhabited α] :
    List (RingOp α) → SpscRing α N → SpscRing α N × List α × List α
  | [], st => (st, [], [])
  | RingOp.push v :: rest, st =>
    let r := SpscRing.emplace_impl st v
    let w := runOps rest r.2
    (w.1, if r.1 then v :: w.2.1 else w.2.1, w.2.2)
  | RingOp.pop :: rest, st =>
    let r := SpscRing.try_pop st default
    let w := runOps rest r.2.2
    (w.1, w.2.1, if r.1 then r.2.1 :: w.2.2 else w.2.2)

/-! ### Index arithmetic for the power-of-two mask -/

theorem mask_eq_mod (x k : Nat) : x &&& (2 ^ k - 1) = x % 2 ^ k :=
  Nat.and_pow_two_sub_one_eq_mod x k

theorem add_mod_ne {a N : Nat} {i j : Nat} (hij : i < j) (hjN : j - i < N) :
    (a + i) % N ≠ (a + j) % N := by
  intro hEq
  have hmod : Nat.ModEq N (a + i) (a + j) := hEq
  have hdvd : N ∣ (a + j) - (a + i) := (Nat.modEq_iff_dvd' (by omega)).1 hmod
  have hsub : (a + j) - (a + i) = j - i := by omega
  rw [hsub] at hdvd
  have := Nat.le_of_dvd (by omega) hdvd
  omega

theorem getD_set_self {α : Type} {l : List (Option α)} {i : Nat}
    (x : Option α) (h : i < l.length) : (l.set i x).getD i none = x := by
  simp [List.getD_eq_getElem?_getD, List.getElem?_set_self, h]

theorem getD_set_ne {α : Type} {l : List (Option α)} {i j : Nat}
    (x : Option α) (h : i ≠ j) : (l.set i x).getD j none = l.getD j none := by
  simp [List.getD_eq_getElem?_getD, List.getElem?_set_ne h]

/-! ### Claims C2 and C3: push/pop boundary and frame behaviour -/

/-- Claim C2: `try_push` returns false iff the ring is full
(`tail - head = N`); when it returns false, `tail` and the stored elements
are unchanged; when it returns true, the value is constructed into the slot
at index `tail mod N` and `tail` is incremented by one.  Stated for the
power-of-two capacities `N = 2^k` that the code's `static_assert` admits
(the code indexes with `tail & (N-1)`, which equals `tail % N`). -/
theorem try_push_spec {α : Type} {k : Nat} (st : SpscRing α (2 ^ k)) (v : α) :
    ((SpscRing.try_push st v).1 = false ↔ st.tail - st.head = 2 ^ k) ∧
    ((SpscRing.try_push st v).1 = false → (SpscRing.try_push st v).2 = st) ∧
    ((SpscRing.try_push st v).1 = true →
      (SpscRing.try_push st v).2 =
        { st with buffer := st.buffer.set (st.tail % 2 ^ k) (some v),
                  tail := st.tail + 1 }) := by
  unfold SpscRing.try_push SpscRing.emplace_impl
  rw [mask_eq_mod]
  by_cases h : st.tail - st.head = 2 ^ k <;> simp [h]

/-- Full ring of capacity `2^1` used to witness the failure branch. -/
def ringFullW : SpscRing Nat (2 ^ 1) := ⟨0, 2, [some 10, some 11]⟩

/-- Witness for C2: a push into the fresh ring succeeds and writes slot 0;
a push into a full ring fails and leaves the state unchanged. -/
theorem try_push_spec_witness :
    ((SpscRing.init Nat (2 ^ 1)).try_push 5).1 = true ∧
    ((SpscRing.init Nat (2 ^ 1)).try_push 5).2 =
      { SpscRing.init Nat (2 ^ 1) with
          buffer := (SpscRing.init Nat (2 ^ 1)).buffer.set
            ((SpscRing.init Nat (2 ^ 1)).tail % 2 ^ 1) (some 5),
          tail := (SpscRing.init Nat (2 ^ 1)).tail + 1 } ∧
    (ringFullW.try_push 5).1 = false ∧
    (ringFullW.try_push 5).2 = ringFullW := by
  have h1 := try_push_spec (SpscRing.init Nat (2 ^ 1)) 5
  have h2 := try_push_spec ringFullW 5
  have ht : ((SpscRing.init Nat (2 ^ 1)).try_push 5).1 = true := by
    rcases Bool.eq_false_or_eq_true ((SpscRing.init Nat (2 ^ 1)).try_push 5).1
      with ht | hf
    · exact ht
    · exact absurd (h1.1.mp hf) (by decide)
  have hff : (ringFullW.try_push 5).1 = false := h2.1.mpr (by decide)
  exact ⟨ht, h1.2.2 ht, hff, h2.2.1 hff⟩

/-- Claim C3: `try_pop` on an empty ring (`head = tail`) returns false and
leaves the out-parameter (and the state) unmodified; on a non-empty ring
whose head slot holds a live element `x` (which well-formedness guarantees,
and which by C1 is the oldest queued element) it returns true, moves `x`
out, destroys the slot and increments `head` by one. -/
theorem try_pop_spec {α : Type} {k : Nat} (st : SpscRing α (2 ^ k)) (out : α) :
    ((SpscRing.try_pop st out).1 = false ↔ st.head = st.tail) ∧
    (st.head = st.tail → SpscRing.try_pop st out = (false, out, st)) ∧
    (st.head ≠ st.tail → ∀ x : α,
      st.buffer.getD (st.head % 2 ^ k) none = some x →
      SpscRing.try_pop st out =
        (true, x, { st with buffer := st.buffer.set (st.head % 2 ^ k) none,
                            head := st.head + 1 })) := by
  by_cases h : st.head = st.tail
  · simp [SpscRing.try_pop, h]
  · refine ⟨by simp [SpscRing.try_pop, h], fun hc => absurd hc h, ?_⟩
    intro _ x hx
    have hx' : (st.buffer[st.head % 2 ^ k]?.getD none) = some x := by
      simpa [List.getD_eq_getElem?_getD] using hx
    simp [SpscRing.try_pop, h, mask_eq_mod, hx']

/-- One-element ring of capacity `2^1` used to witness the success branch. -/
def ringOneW : SpscRing Nat (2 ^ 1) := ⟨0, 1, [some 7, none]⟩

/-- Witness for C3: popping the fresh ring fails and leaves the
out-parameter `9` untouched; popping a one-element ring yields the element,
clears the slot and advances `head`. -/
theorem try_pop_spec_witness :
    (SpscRing.init Nat (2 ^ 1)).try_pop 9 =
      (false, 9, SpscRing.init Nat (2 ^ 1)) ∧
    ringOneW.try_pop 9 =
      (true, 7, { ringOneW with
                    buffer := ringOneW.buffer.set (ringOneW.head % 2 ^ 1) none,
                    head := ringOneW.head + 1 }) := by
  have h1 := try_pop_spec (SpscRing.init Nat (2 ^ 1)) 9
  have h2 := try_pop_spec ringOneW 9
  exact ⟨h1.2.1 rfl, h2.2.2 (by decide) 7 (by decide)⟩

/-! ### FIFO machinery: how `contents` evolves under push and pop -/

theorem contents_init (α : Type) (N : Nat) :
    (SpscRing.init α N).contents = [] := by
  simp [SpscRing.init, SpscRing.contents]

theorem wf_init (α : Type) (N : Nat) : (SpscRing.init α N).wf := by
  refine ⟨Nat.le_refl 0, by simp [SpscRing.init], by simp [SpscRing.init], ?_⟩
  simp [contents_init]

theorem contents_push {α : Type} {k : Nat} (st : SpscRing α (2 ^ k)) (v : α)
    (hlen : st.buffer.length = 2 ^ k) (hle : st.head ≤ st.tail)
    (hlt : st.tail - st.head < 2 ^ k) :
    SpscRing.contents
      ({ st with buffer := st.buffer.set (st.tail % 2 ^ k) (some v),
                 tail := st.tail + 1 } : SpscRing α (2 ^ k))
      = st.contents ++ [some v] := by
  unfold SpscRing.contents
  have hd : st.tail + 1 - st.head = (st.tail - st.head) + 1 := by omega
  simp only [hd, List.range_succ, List.map_append, List.map_cons, List.map_nil]
  congr 1
  · apply List.map_congr_left
    intro j hj
    have hjlt : j < st.tail - st.head := List.mem_range.mp hj
    have htl : st.head + (st.tail - st.head) = st.tail := by omega
    have hne : (st.head + j) % 2 ^ k ≠ st.tail % 2 ^ k := by
      have := @add_mod_ne st.head (2 ^ k) j (st.tail - st.head) hjlt (by omega)
      rwa [htl] at this
    exact getD_set_ne _ (Ne.symm hne)
  · have htl : st.head + (st.tail - st.head) = st.tail := by omega
    rw [htl]
    rw [getD_set_self _ (by
      rw [hlen]
      exact Nat.mod_lt _ (pow_pos (by norm_num) k))]

theorem contents_pop {α : Type} {k : Nat} (st : SpscRing α (2 ^ k))
    (hle : st.head ≤ st.tail) (hcap : st.tail ≤ st.head + 2 ^ k)
    (hne : st.head ≠ st.tail) :
    st.contents
      = st.buffer.getD (st.head % 2 ^ k) none ::
        SpscRing.contents
          ({ st with buffer := st.buffer.set (st.head % 2 ^ k) none,
                     head := st.head + 1 } : SpscRing α (2 ^ k)) := by
  unfold SpscRing.contents
  have hd : st.tail - st.head = (st.tail - (st.head + 1)) + 1 := by omega
  rw [hd, List.range_succ_eq_map]
  simp only [List.map_cons, List.map_map, Nat.add_zero]
  congr 1
  apply List.map_congr_left
  intro j hj
  have hjlt : j < st.tail - (st.head + 1) := List.mem_range.mp hj
  have hne2 : st.head % 2 ^ k ≠ (st.head + 1 + j) % 2 ^ k := by
    have := @add_mod_ne st.head (2 ^ k) 0 (1 + j) (by omega) (by omega)
    simpa [Nat.add_assoc] using this
  simp only [Function.comp]
  rw [getD_set_ne _ hne2]
  have harg : st.head + j.succ = st.head + 1 + j := by omega
  rw [harg]

/-- Master lemma: running any operation sequence on a well-formed state
preserves well-formedness, and the popped values followed by the remaining
queue contents equal the previous contents followed by the pushed values. -/
theorem runOps_spec {α : Type} {k : Nat} [Inhabited α] :
    ∀ (ops : List (RingOp α)) (st : SpscRing α (2 ^ k)), st.wf →
      (runOps ops st).1.wf ∧
      (runOps ops st).2.2.map some ++ (runOps ops st).1.contents
        = st.contents ++ (runOps ops st).2.1.map some := by
  intro ops
  induction ops with
  | nil =>
    intro st hwf
    exact ⟨hwf, by simp [runOps]⟩
  | cons op rest ih =>
    intro st hwf
    obtain ⟨hle, hcap, hlen, hsome⟩ := hwf
    cases op with
    | push v =>
      by_cases hfull : st.tail - st.head = 2 ^ k
      · have hpush : SpscRing.emplace_impl st v = (false, st) := by
          simp [SpscRing.emplace_impl, hfull]
        have hrec := ih st ⟨hle, hcap, hlen, hsome⟩
        simp only [runOps, hpush]
        exact ⟨hrec.1, by simpa using hrec.2⟩
      · set st' : SpscRing α (2 ^ k) :=
          { st with buffer := st.buffer.set (st.tail % 2 ^ k) (some v),
                    tail := st.tail + 1 } with hst'
        have hpush : SpscRing.emplace_impl st v = (true, st') := by
          simp [SpscRing.emplace_impl, hfull, mask_eq_mod, hst']
        have hcont : st'.contents = st.contents ++ [some v] :=
          contents_push st v hlen hle (by omega)
        have hwf' : st'.wf := by
          refine ⟨?_, ?_, ?_, ?_⟩
          · simp only [hst']
            omega
          · simp only [hst']
            omega
          · simp [hst', hlen]
          · rw [hcont]
            intro e he
            rcases List.mem_append.mp he with h1 | h1
            · exact hsome e h1
            · simp only [List.mem_singleton] at h1
              simp [h1]
        have hrec := ih st' hwf'
        simp only [runOps, hpush]
        refine ⟨hrec.1, ?_⟩
        simp [hrec.2, hcont, List.append_assoc]
    | pop =>
      by_cases hemp : st.head = st.tail
      · have hpop : SpscRing.try_pop st (default : α) = (false, default, st) := by
          simp [SpscRing.try_pop, hemp]
        have hrec := ih st ⟨hle, hcap, hlen, hsome⟩
        simp only [runOps, hpop]
        exact ⟨hrec.1, by simpa using hrec.2⟩
      · set st' : SpscRing α (2 ^ k) :=
          { st with buffer := st.buffer.set (st.head % 2 ^ k) none,
                    head := st.head + 1 } with hst'
        have hcont : st.contents
            = st.buffer.getD (st.head % 2 ^ k) none :: st'.contents :=
          contents_pop st hle hcap hemp
        have hmem : st.buffer.getD (st.head % 2 ^ k) none ∈ st.contents := by
          rw [hcont]
          exact List.mem_cons_self _ _
        obtain ⟨x, hx⟩ := Option.isSome_iff_exists.mp (hsome _ hmem)
        have hpop : SpscRing.try_pop st (default : α) = (true, x, st') := by
          have hx' : (st.buffer[st.head % 2 ^ k]?.getD none) = some x := by
            simpa [List.getD_eq_getElem?_getD] using hx
          simp [SpscRing.try_pop, hemp, mask_eq_mod, hx', hst']
        have hwf' : st'.wf := by
          refine ⟨?_, ?_, ?_, ?_⟩
          · simp only [hst']
            omega
          · simp only [hst']
            omega
          · simp [hst', hlen]
          · intro e he
            apply hsome
            rw [hcont]
            exact List.mem_cons_of_mem _ he
        have hrec := ih st' hwf'
        simp only [runOps, hpop]
        refine ⟨hrec.1, ?_⟩
        rw [hcont, hx]
        simp [hrec.2]

/-- Claim C1: for every sequence of `try_push`/`try_pop` operations executed
sequentially from the empty ring, the values returned by the successful
pops, followed by what is still queued in the ring, are exactly the values
passed to the successful pushes, in order — FIFO, with no enqueued value
lost or duplicated. -/
theorem spsc_fifo {α : Type} {k : Nat} [Inhabited α] (ops : List (RingOp α)) :
    (runOps ops (SpscRing.init α (2 ^ k))).2.2.map some
        ++ (runOps ops (SpscRing.init α (2 ^ k))).1.contents
      = (runOps ops (SpscRing.init α (2 ^ k))).2.1.map some := by
  have h := runOps_spec ops (SpscRing.init α (2 ^ k)) (wf_init α (2 ^ k))
  simpa [contents_init] using h.2

/-- Claim C4: every state reachable from the initial state (`head = tail =
0`) by a sequence of push/pop operations keeps `0 ≤ tail - head ≤ N` (the
counters stay ordered, so the unsigned difference never wraps), and no
single `try_push` or `try_pop` ever decreases `head` or `tail`. -/
theorem spsc_counters {α : Type} {k : Nat} [Inhabited α]
    (ops : List (RingOp α)) :
    ((runOps ops (SpscRing.init α (2 ^ k))).1.head
        ≤ (runOps ops (SpscRing.init α (2 ^ k))).1.tail ∧
      (runOps ops (SpscRing.init α (2 ^ k))).1.tail
          - (runOps ops (SpscRing.init α (2 ^ k))).1.head ≤ 2 ^ k) ∧
    ∀ (st : SpscRing α (2 ^ k)) (v out : α),
      st.head ≤ (SpscRing.try_push st v).2.head ∧
      st.tail ≤ (SpscRing.try_push st v).2.tail ∧
      st.head ≤ (SpscRing.try_pop st out).2.2.head ∧
      st.tail ≤ (SpscRing.try_pop st out).2.2.tail := by
  constructor
  · obtain ⟨h1, h2, -, -⟩ :=
      (runOps_spec ops (SpscRing.init α (2 ^ k)) (wf_init α (2 ^ k))).1
    exact ⟨h1, by omega⟩
  · intro st v out
    refine ⟨?_, ?_, ?_, ?_⟩ <;>
      simp only [SpscRing.try_push, SpscRing.emplace_impl, SpscRing.try_pop] <;>
      split <;> simp

/-! ### Data model of the security store (security_store.hpp, messages.hpp)

`Price` and `Quantity` are unsigned 64-bit scalars in the code; they are
modelled as `Nat` (no claim depends on 64-bit wrap of a price/quantity).
A `SecurityId` is the 8-byte `std::array<char, 8>`, modelled as the list of
its byte values. -/

/-- `PriceLevel`: a `(price, quantity)` pair. -/
structure PriceLevel where
  price : Nat
  quantity : Nat
deriving DecidableEq

/-- `PriceLevel{}` — the value-initialized (zeroed) level. -/
def PriceLevel.zero : PriceLevel := ⟨0, 0⟩

/-- 8-byte security symbol, as the list of its byte values. -/
abbrev SecurityId := List Nat

/-- `MessageHeader` (messages.hpp). -/
structure MessageHeader where
  seq_no : Nat
  length : Nat
  type : Nat
deriving DecidableEq

/-- `MarketDataL2Message` (messages.hpp): five bid and five ask levels plus
the per-side valid-level counts (`uint8_t`, so arbitrary values up to 255
are representable). -/
structure MarketDataL2Message where
  header : MessageHeader
  security_id : SecurityId
  timestamp_ns : Nat
  bids : List PriceLevel
  asks : List PriceLevel
  num_bid_levels : Nat
  num_ask_levels : Nat
deriving DecidableEq

/-- `SecurityStore::SecurityData::OrderBookSide`. -/
structure OrderBookSide where
  num_levels : Nat
  levels : List PriceLevel
deriving DecidableEq

/-- `SecurityStore::SecurityData`: one slot of the store. -/
structure SecurityData where
  active : Bool
  security_id : SecurityId
  best_bid : Nat
  best_ask : Nat
  last_trade_price : Nat
  last_update_ns : Nat
  bids : OrderBookSide
  asks : OrderBookSide
  update_count : Nat
  total_volume : Nat
deriving DecidableEq

/-- A default-constructed slot (all atomics zero, inactive, id and levels
zero-filled), as built by the store's constructor. -/
def SecurityData.mk0 : SecurityData :=
  { active := false, security_id := List.replicate 8 0,
    best_bid := 0, best_ask := 0, last_trade_price := 0, last_update_ns := 0,
    bids := { num_levels := 0, levels := List.replicate 5 PriceLevel.zero },
    asks := { num_levels := 0, levels := List.replicate 5 PriceLevel.zero },
    update_count := 0, total_volume := 0 }

/-- `SecurityData::initialize` (security_store.hpp:64-78): stores the id,
resets the scalar atomics and both `num_levels`, then publishes
`active = true`.  Note that the `levels` arrays are NOT reset. -/
def SecurityData.initialize_slot (s : SecurityData) (id : SecurityId) :
    SecurityData :=
  { s with security_id := id,
           best_bid := 0, best_ask := 0, last_trade_price := 0,
           last_update_ns := 0, update_count := 0, total_volume := 0,
           bids := { s.bids with num_levels := 0 },
           asks := { s.asks with num_levels := 0 },
           active := true }

/-- `SecurityData::deactivate`. -/
def SecurityData.deactivate (s : SecurityData) : SecurityData :=
  { s with active := false }

/-- `SecurityData::matches`: active and byte-wise id equality. -/
def SecurityData.matches (s : SecurityData) (id : SecurityId) : Bool :=
  s.active && s.security_id == id

/-- `SecurityStore::MAX_SECURITIES`. -/
def MAX_SECURITIES : Nat := 256

/-- The store: the fixed slot array (length `MAX_SECURITIES` in a real
store) and the active-count counter. -/
structure SecurityStore where
  securities : List SecurityData
  active_count : Nat
deriving DecidableEq

/-- A freshly constructed store with `n` default slots. -/
def SecurityStore.init (n : Nat) : SecurityStore :=
  ⟨List.replicate n SecurityData.mk0, 0⟩

/-- `SecurityStore::find_security_data` (security_store.hpp:310-318):
index of the first slot that is active and matches the id. -/
def find_security_data (l : List SecurityData) (id : SecurityId) :
    Option Nat :=
  match l with
  | [] => none
  | s :: rest =>
    if s.matches id then some 0
    else (find_security_data rest id).map (· + 1)

/-- Index of the first slot whose `active` flag is false — the slot whose
claim CAS (`compare_exchange_strong(expected = false, false)`) succeeds
first in the scan of `add_security` (security_store.hpp:168-179). -/
def find_inactive (l : List SecurityData) : Option Nat :=
  match l with
  | [] => none
  | s :: rest =>
    if s.active then (find_inactive rest).map (· + 1) else some 0

/-- `SecurityStore::add_security` (security_store.hpp:161-182). -/
def SecurityStore.add_security (st : SecurityStore) (id : SecurityId) :
    Bool × SecurityStore :=
  if (find_security_data st.securities id).isSome then (false, st)
  else
    match find_inactive st.securities with
    | some i =>
      (true,
        { securities := st.securities.set i
            (SecurityData.initialize_slot
              (st.securities.getD i SecurityData.mk0) id),
          active_count := st.active_count + 1 })
    | none => (false, st)

/-- `SecurityStore::remove_security` (security_store.hpp:189-198). -/
def SecurityStore.remove_security (st : SecurityStore) (id : SecurityId) :
    Bool × SecurityStore :=
  match find_security_data st.securities id with
  | none => (false, st)
  | some i =>
    (true,
      { securities := st.securities.set i
          (SecurityData.deactivate (st.securities.getD i SecurityData.mk0)),
        active_count := st.active_count - 1 })

/-- `SecurityStore::contains`. -/
def SecurityStore.contains (st : SecurityStore) (id : SecurityId) : Bool :=
  (find_security_data st.securities id).isSome

/-- `SecurityStore::update_order_book_side` (security_store.hpp:323-337):
copy `min(num_levels, 5)` entries from the message levels, zero the
remaining entries, then publish the new count. -/
def update_order_book_side (levels : List PriceLevel) (num_levels : Nat) :
    OrderBookSide :=
  let copy_count := min num_levels 5
  { num_levels := copy_count,
    levels := levels.take copy_count
      ++ List.replicate (5 - copy_count) PriceLevel.zero }

/-- `SecurityStore::update_from_l2` (security_store.hpp:205-231). -/
def SecurityStore.update_from_l2 (st : SecurityStore)
    (m : MarketDataL2Message) : Bool × SecurityStore :=
  match find_security_data st.securities m.security_id with
  | none => (false, st)
  | some i =>
    let s0 := st.securities.getD i SecurityData.mk0
    let s1 := { s0 with last_update_ns := m.timestamp_ns }
    let s2 := if 0 < m.num_bid_levels
      then { s1 with best_bid := (m.bids.getD 0 PriceLevel.zero).price }
      else s1
    let s3 := if 0 < m.num_ask_levels
      then { s2 with best_ask := (m.asks.getD 0 PriceLevel.zero).price }
      else s2
    let s4 := { s3 with bids := update_order_book_side m.bids m.num_bid_levels,
                        asks := update_order_book_side m.asks m.num_ask_levels,
                        update_count := s3.update_count + 1 }
    (true, { st with securities := st.securities.set i s4 })

/-- `SecurityStore::SecuritySnapshot`. -/
structure SecuritySnapshot where
  security_id : SecurityId
  best_bid : Nat
  best_ask : Nat
  last_trade_price : Nat
  last_update_ns : Nat
  num_bid_levels : Nat
  num_ask_levels : Nat
  bids : List PriceLevel
  asks : List PriceLevel
  update_count : Nat
  total_volume : Nat
deriving DecidableEq

/-- `SecurityStore::get_security_snapshot` (security_store.hpp:239-262),
with the bool-and-out-parameter pair rendered as an `Option`. -/
def SecurityStore.get_security_snapshot (st : SecurityStore)
    (id : SecurityId) : Option SecuritySnapshot :=
  match find_security_data st.securities id with
  | none => none
  | some i =>
    let s := st.securities.getD i SecurityData.mk0
    some { security_id := s.security_id,
           best_bid := s.best_bid, best_ask := s.best_ask,
           last_trade_price := s.last_trade_price,
           last_update_ns := s.last_update_ns,
           num_bid_levels := s.bids.num_levels,
           num_ask_levels := s.asks.num_levels,
           bids := s.bids.levels, asks := s.asks.levels,
           update_count := s.update_count, total_volume := s.total_volume }

/-! ### Properties of the linear slot scans -/

theorem getD_set_self_gen {α : Type} {l : List α} {i : Nat} (x d : α)
    (h : i < l.length) : (l.set i x).getD i d = x := by
  simp [List.getD_eq_getElem?_getD, List.getElem?_set_self, h]

theorem getD_set_ne_gen {α : Type} {l : List α} {i j : Nat} (x d : α)
    (h : i ≠ j) : (l.set i x).getD j d = l.getD j d := by
  simp [List.getD_eq_getElem?_getD, List.getElem?_set_ne h]

theorem find_security_data_none_iff {l : List SecurityData}
    {id : SecurityId} :
    find_security_data l id = none ↔ ∀ s ∈ l, s.matches id = false := by
  induction l with
  | nil => simp [find_security_data]
  | cons s rest ih =>
    cases hs : s.matches id with
    | true => simp [find_security_data, hs]
    | false => simp [find_security_data, hs, ih]

theorem find_security_data_isSome_iff {l : List SecurityData}
    {id : SecurityId} :
    (find_security_data l id).isSome = true
      ↔ ∃ s ∈ l, s.matches id = true := by
  induction l with
  | nil => simp [find_security_data]
  | cons s rest ih =>
    cases hs : s.matches id with
    | true => simp [find_security_data, hs]
    | false => simp [find_security_data, hs, ih]

theorem find_security_data_some {l : List SecurityData} {id : SecurityId}
    {i : Nat} (h : find_security_data l id = some i) :
    i < l.length ∧ (l.getD i SecurityData.mk0).matches id = true := by
  induction l generalizing i with
  | nil => simp [find_security_data] at h
  | cons s rest ih =>
    cases hs : s.matches id with
    | true =>
      rw [find_security_data, hs] at h
      simp only [if_true] at h
      cases h
      exact ⟨by simp, by simpa using hs⟩
    | false =>
      rw [find_security_data, hs] at h
      simp only [Bool.false_eq_true, if_false, Option.map_eq_some'] at h
      obtain ⟨j, hj, hji⟩ := h
      obtain ⟨hjl, hjm⟩ := ih hj
      subst hji
      exact ⟨by simpa using hjl, by simpa using hjm⟩

theorem find_inactive_none_iff {l : List SecurityData} :
    find_inactive l = none ↔ ∀ s ∈ l, s.active = true := by
  induction l with
  | nil => simp [find_inactive]
  | cons s rest ih =>
    cases hs : s.active with
    | true => simp [find_inactive, hs, ih]
    | false => simp [find_inactive, hs]

theorem find_inactive_some {l : List SecurityData} {i : Nat}
    (h : find_inactive l = some i) :
    i < l.length ∧ (l.getD i SecurityData.mk0).active = false := by
  induction l generalizing i with
  | nil => simp [find_inactive] at h
  | cons s rest ih =>
    cases hs : s.active with
    | false =>
      rw [find_inactive, hs] at h
      simp only [Bool.false_eq_true, if_false] at h
      cases h
      exact ⟨by simp, by simpa using hs⟩
    | true =>
      rw [find_inactive, hs] at h
      simp only [if_true, Option.map_eq_some'] at h
      obtain ⟨j, hj, hji⟩ := h
      obtain ⟨hjl, hjm⟩ := ih hj
      subst hji
      exact ⟨by simpa using hjl, by simpa using hjm⟩

theorem find_security_data_set_self {l : List SecurityData}
    {id : SecurityId} {i : Nat} {s' : SecurityData}
    (hnone : find_security_data l id = none) (hm : s'.matches id = true)
    (hi : i < l.length) :
    find_security_data (l.set i s') id = some i := by
  induction l generalizing i with
  | nil => simp at hi
  | cons s rest ih =>
    rw [find_security_data] at hnone
    cases hs : s.matches id with
    | true => simp [hs] at hnone
    | false =>
      rw [hs] at hnone
      simp only [Bool.false_eq_true, if_false, Option.map_eq_none'] at hnone
      cases i with
      | zero => simp [find_security_data, hm]
      | succ j =>
        simp only [List.set_cons_succ]
        rw [find_security_data, hs]
        simp only [Bool.false_eq_true, if_false]
        rw [ih hnone (by simpa using hi)]
        rfl

theorem find_security_data_set_miss {l : List SecurityData}
    {id : SecurityId} {i : Nat} {s' : SecurityData}
    (hnone : find_security_data l id = none) (hm : s'.matches id = false) :
    find_security_data (l.set i s') id = none := by
  induction l generalizing i with
  | nil => simp [List.set, find_security_data]
  | cons s rest ih =>
    rw [find_security_data] at hnone
    cases hs : s.matches id with
    | true => simp [hs] at hnone
    | false =>
      rw [hs] at hnone
      simp only [Bool.false_eq_true, if_false, Option.map_eq_none'] at hnone
      cases i with
      | zero =>
        simp only [List.set_cons_zero]
        rw [find_security_data, hm]
        simp [hnone]
      | succ j =>
        simp only [List.set_cons_succ]
        rw [find_security_data, hs]
        simp [ih hnone]

/-! ### Claim C6: add_security boundary behaviour -/

/-- Claim C6: `add_security(id)` returns false iff an active slot already
matches `id` or every slot of the table is active (a real store has
`MAX_SECURITIES = 256` slots, so that is the full-table case); otherwise it
claims the first inactive slot, initializes its fields, publishes
`active = true` carrying the requested id, bumps the active count, and
returns true.  The capacity scenario of the claim (256 adds fill the
table, the 257th fails, a remove re-enables adding) is the instance of
this equivalence exercised by the witness below. -/
theorem add_security_spec (st : SecurityStore) (id : SecurityId) :
    (((st.add_security id).1 = false) ↔
      ((∃ s ∈ st.securities, s.matches id = true) ∨
        ∀ s ∈ st.securities, s.active = true)) ∧
    ((st.add_security id).1 = true →
      ∃ i, find_inactive st.securities = some i ∧
        (st.securities.getD i SecurityData.mk0).active = false ∧
        (st.add_security id).2.securities
          = st.securities.set i
              (SecurityData.initialize_slot
                (st.securities.getD i SecurityData.mk0) id) ∧
        ((st.add_security id).2.securities.getD i SecurityData.mk0).active
          = true ∧
        ((st.add_security id).2.securities.getD i
            SecurityData.mk0).security_id = id ∧
        (st.add_security id).2.active_count = st.active_count + 1) := by
  by_cases hf : (find_security_data st.securities id).isSome = true
  · constructor
    · have hl : ∃ s ∈ st.securities, s.matches id = true :=
        find_security_data_isSome_iff.mp hf
      simp [SecurityStore.add_security, hf, hl]
    · intro ht
      rw [SecurityStore.add_security] at ht
      simp [hf] at ht
  · have hnone : find_security_data st.securities id = none :=
      Option.not_isSome_iff_eq_none.mp hf
    cases hin : find_inactive st.securities with
    | none =>
      constructor
      · have hr : ∀ s ∈ st.securities, s.active = true :=
          find_inactive_none_iff.mp hin
        simp only [SecurityStore.add_security, hf, hin]
        simp only [Bool.false_eq_true, if_false]
        exact iff_of_true trivial (Or.inr hr)
      · intro ht
        rw [SecurityStore.add_security] at ht
        simp [hf, hin] at ht
    | some i =>
      obtain ⟨hi, hia⟩ := find_inactive_some hin
      have hres : st.add_security id
          = (true,
              { securities := st.securities.set i
                  (SecurityData.initialize_slot
                    (st.securities.getD i SecurityData.mk0) id),
                active_count := st.active_count + 1 }) := by
        rw [SecurityStore.add_security]
        simp [hf, hin]
      constructor
      · rw [hres]
        simp only [Bool.true_eq_false, false_iff]
        push_neg
        constructor
        · intro s hs
          have := find_security_data_none_iff.mp hnone s hs
          simp [this]
        · refine ⟨st.securities.getD i SecurityData.mk0, ?_,
            by simpa [List.getD_eq_getElem?_getD] using hia⟩
          have hgd : st.securities.getD i SecurityData.mk0
              = st.securities.get ⟨i, hi⟩ := by
            simp [List.getD_eq_getElem?_getD, List.getElem?_eq_getElem hi,
              List.get_eq_getElem]
          rw [hgd]
          exact List.get_mem _ _ hi
      · intro _
        refine ⟨i, rfl, hia, by rw [hres], ?_, ?_, by rw [hres]⟩
        · rw [hres]
          simp only []
          rw [getD_set_self_gen _ _ hi]
          rfl
        · rw [hres]
          simp only []
          rw [getD_set_self_gen _ _ hi]
          rfl

/-- An active slot holding the single-byte-distinguished id `[b,0,...,0]`. -/
def activeSlotW (b : Nat) : SecurityData :=
  { SecurityData.mk0 with
    active := true,
    security_id := [b, 0, 0, 0, 0, 0, 0, 0] }

/-- A store whose `MAX_SECURITIES = 256` slots are all active, with 256
distinct ids. -/
def fullStoreW : SecurityStore :=
  ⟨(List.range MAX_SECURITIES).map activeSlotW, MAX_SECURITIES⟩

/-- An id distinct from every id in `fullStoreW`. -/
def newIdW : SecurityId := [0, 1, 0, 0, 0, 0, 0, 0]

set_option maxRecDepth 8000 in
/-- Witness for C6: with all 256 slots active, `add_security` of a fresh id
returns false; after removing one security, the same add succeeds. -/
theorem add_security_spec_witness :
    (fullStoreW.add_security newIdW).1 = false ∧
    ((fullStoreW.remove_security [7, 0, 0, 0, 0, 0, 0, 0]).2.add_security
        newIdW).1 = true := by
  have h1 := add_security_spec fullStoreW newIdW
  have h2 := add_security_spec
    (fullStoreW.remove_security [7, 0, 0, 0, 0, 0, 0, 0]).2 newIdW
  constructor
  · exact h1.1.mpr (Or.inr (by decide))
  · rcases Bool.eq_false_or_eq_true
      (((fullStoreW.remove_security [7, 0, 0, 0, 0, 0, 0, 0]).2.add_security
        newIdW).1) with ht | hfp
    · exact ht
    · exact absurd (h2.1.mp hfp) (by decide)

/-! ### Claim C10: activation resets the published fields -/

/-- Claim C10: whenever `add_security(id)` returns true, a snapshot of `id`
taken with no intervening `update_from_l2` reports `best_bid`, `best_ask`,
`last_trade_price`, `last_update_ns`, `update_count`, `total_volume`,
`num_bid_levels` and `num_ask_levels` all zero — even when the claimed slot
previously held data of a since-removed security (`initialize` resets
exactly these fields before publishing `active = true`). -/
theorem add_snapshot_spec (st : SecurityStore) (id : SecurityId)
    (h : (st.add_security id).1 = true) :
    ∃ snap, (st.add_security id).2.get_security_snapshot id = some snap ∧
      snap.best_bid = 0 ∧ snap.best_ask = 0 ∧ snap.last_trade_price = 0 ∧
      snap.last_update_ns = 0 ∧ snap.update_count = 0 ∧
      snap.total_volume = 0 ∧ snap.num_bid_levels = 0 ∧
      snap.num_ask_levels = 0 := by
  by_cases hf : (find_security_data st.securities id).isSome = true
  · rw [SecurityStore.add_security] at h
    simp [hf] at h
  · have hnone : find_security_data st.securities id = none :=
      Option.not_isSome_iff_eq_none.mp hf
    cases hin : find_inactive st.securities with
    | none =>
      rw [SecurityStore.add_security] at h
      simp [hf, hin] at h
    | some i =>
      obtain ⟨hi, hia⟩ := find_inactive_some hin
      have hres : (st.add_security id).2
          = { securities := st.securities.set i
                (SecurityData.initialize_slot
                  (st.securities.getD i SecurityData.mk0) id),
              active_count := st.active_count + 1 } := by
        rw [SecurityStore.add_security]
        simp [hf, hin]
      rw [hres]
      have hmatch : (SecurityData.initialize_slot
          (st.securities.getD i SecurityData.mk0) id).matches id = true := by
        simp [SecurityData.matches, SecurityData.initialize_slot]
      have hfind : find_security_data
          (st.securities.set i
            (SecurityData.initialize_slot
              (st.securities.getD i SecurityData.mk0) id)) id = some i :=
        find_security_data_set_self hnone hmatch hi
      rw [SecurityStore.get_security_snapshot]
      rw [hfind]
      simp only []
      rw [getD_set_self_gen _ _ (by simpa using hi)]
      exact ⟨_, rfl, rfl, rfl, rfl, rfl, rfl, rfl, rfl, rfl⟩

/-- A one-slot store whose inactive slot still holds data of a removed
security. -/
def staleStoreW : SecurityStore :=
  ⟨[{ SecurityData.mk0 with
        security_id := [1, 2, 3, 4, 5, 6, 7, 8],
        best_bid := 999, best_ask := 1001, last_trade_price := 5,
        last_update_ns := 42, update_count := 3, total_volume := 7,
        bids := { num_levels := 2,
                  levels := [⟨999, 10⟩, ⟨998, 5⟩, PriceLevel.zero,
                             PriceLevel.zero, PriceLevel.zero] } }], 0⟩

/-- Witness for C10: adding over the stale slot succeeds and the snapshot
reports only zeroes for the claimed fields. -/
theorem add_snapshot_spec_witness :
    (staleStoreW.add_security [9, 0, 0, 0, 0, 0, 0, 0]).1 = true ∧
    ∃ snap, (staleStoreW.add_security
        [9, 0, 0, 0, 0, 0, 0, 0]).2.get_security_snapshot
          [9, 0, 0, 0, 0, 0, 0, 0] = some snap ∧
      snap.best_bid = 0 ∧ snap.best_ask = 0 ∧ snap.last_trade_price = 0 ∧
      snap.last_update_ns = 0 ∧ snap.update_count = 0 ∧
      snap.total_volume = 0 ∧ snap.num_bid_levels = 0 ∧
      snap.num_ask_levels = 0 :=
  ⟨by decide, add_snapshot_spec staleStoreW [9, 0, 0, 0, 0, 0, 0, 0]
    (by decide)⟩

/-! ### Claim C8: symbol round-trip (security_seeder.hpp) -/

/-- `SecuritySeeder::MAX_SYMBOL_LENGTH`. -/
def MAX_SYMBOL_LENGTH : Nat := 8

/-- `SecuritySeeder::create_security_id` (security_seeder.hpp:172-180):
fill the 8-byte id with NUL, then copy the first `min(length, 8)` bytes of
the symbol into it. -/
def create_security_id (symbol : List Nat) : SecurityId :=
  let copy_length := min symbol.length MAX_SYMBOL_LENGTH
  symbol.take copy_length ++ List.replicate (8 - copy_length) 0

/-- `SecuritySeeder::security_id_to_string` (security_seeder.hpp:187-198):
the loop keeps the bytes before the first NUL (it breaks at the first NUL
and returns the prefix of that length). -/
def security_id_to_string (id : SecurityId) : List Nat :=
  id.takeWhile (fun b => b != 0)

theorem takeWhile_append_zeros (l : List Nat) (n : Nat)
    (h : ∀ b ∈ l, b ≠ 0) :
    (l ++ List.replicate n 0).takeWhile (fun b => b != 0) = l := by
  induction l with
  | nil =>
    cases n with
    | zero => simp
    | succ m => simp [List.replicate_succ, List.takeWhile_cons]
  | cons b rest ih =>
    have hb : b ≠ 0 := h b (List.mem_cons_self _ _)
    have hrest : ∀ x ∈ rest, x ≠ 0 := fun x hx => h x (List.mem_cons_of_mem _ hx)
    simp only [List.cons_append, List.takeWhile_cons]
    simp [bne_iff_ne, hb, ih hrest]

/-- Counterexample to C8 as stated: the one-byte string consisting of a
single NUL byte has length at most 8, yet the round-trip returns the empty
string rather than the original, because `security_id_to_string` stops at
the first NUL byte. -/
theorem security_roundtrip_counterexample :
    security_id_to_string (create_security_id [0]) ≠ [0] := by decide

/-- Claim C8 (amended): for every byte string whose copied prefix (its
first `min(length, 8)` bytes) contains no NUL byte, the round-trip
`security_id_to_string (create_security_id s)` returns `s` itself when
`s.length ≤ 8`, and the first 8 bytes of `s` when it is longer.  For
strings with a NUL among the copied bytes the round-trip instead cuts at
the first NUL (see the counterexample). -/
theorem security_roundtrip (s : List Nat)
    (h : ∀ b ∈ s.take MAX_SYMBOL_LENGTH, b ≠ 0) :
    (s.length ≤ MAX_SYMBOL_LENGTH →
      security_id_to_string (create_security_id s) = s) ∧
    (MAX_SYMBOL_LENGTH < s.length →
      security_id_to_string (create_security_id s) = s.take 8) := by
  constructor
  · intro hle
    have hmin : min s.length MAX_SYMBOL_LENGTH = s.length :=
      Nat.min_eq_left hle
    have htk : s.take s.length = s := List.take_length s
    have hall : ∀ b ∈ s, b ≠ 0 := by
      intro b hb
      refine h b ?_
      have hts : s.take MAX_SYMBOL_LENGTH = s := List.take_of_length_le hle
      rwa [hts]
    rw [security_id_to_string, create_security_id]
    simp only [hmin, htk]
    exact takeWhile_append_zeros s _ hall
  · intro hgt
    have hmin : min s.length MAX_SYMBOL_LENGTH = MAX_SYMBOL_LENGTH :=
      Nat.min_eq_right (Nat.le_of_lt hgt)
    have hall : ∀ b ∈ s.take 8, b ≠ 0 := h
    rw [security_id_to_string, create_security_id]
    simp only [hmin]
    have h88 : MAX_SYMBOL_LENGTH = 8 := rfl
    rw [h88]
    simpa using takeWhile_append_zeros (s.take 8) 0 hall

/-- Witness for C8 (amended): the NUL-free 4-byte symbol "AAPL"
round-trips to itself. -/
theorem security_roundtrip_witness :
    (∀ b ∈ ([65, 65, 80, 76] : List Nat).take MAX_SYMBOL_LENGTH, b ≠ 0) ∧
    security_id_to_string (create_security_id [65, 65, 80, 76])
      = [65, 65, 80, 76] := by
  have h := security_roundtrip [65, 65, 80, 76] (by decide)
  exact ⟨by decide, h.1 (by decide)⟩

/-! ### Claim C7: the claim protocol CAS under two-thread interleaving

`SecurityStore::add_security` (security_store.hpp:166-182) and
`RandomMarketDataProvider::subscribe`
(random_market_data_provider.hpp:84-106) claim a slot with
`active.compare_exchange_strong(expected = false, desired = false)` and
only later, at the end of `initialize`, store `active = true`.  The model
below runs two claim attempts on the same inactive slot, interleaving
their two atomic accesses to `active` (each access is a single atomic
step; atomic coherence on one variable makes any interleaving of the two
accesses a legal execution even under the weakest C++ orderings).  A
thread whose CAS fails gives up with result false (in a one-slot table
the scan finds no further slot); a thread whose CAS succeeds runs the
slot initialization, whose final step stores `active = true`, and
returns true. -/

/-- `active.compare_exchange_strong(expected = false, false)`: succeeds iff
`active` is false, and then writes back false — it never changes `active`.
Returns `(succeeded, new value of active)`. -/
def cas_false_false (active : Bool) : Bool × Bool :=
  if active == false then (true, false) else (false, active)

/-- Program counter of one claim attempt. -/
inductive ClaimPc where
  | beforeCas
  | beforeStore
  | done
deriving DecidableEq

/-- One thread running a claim attempt: its program counter and, once the
attempt has returned, its boolean result. -/
structure ClaimThread where
  pc : ClaimPc
  result : Option Bool
deriving DecidableEq

/-- One atomic step of a claim attempt against the shared `active` flag.
Returns the new thread state and the new value of `active`. -/
def ClaimThread.step (th : ClaimThread) (active : Bool) :
    ClaimThread × Bool :=
  match th.pc with
  | ClaimPc.beforeCas =>
    let r := cas_false_false active
    if r.1 then ({ pc := ClaimPc.beforeStore, result := th.result }, r.2)
    else ({ pc := ClaimPc.done, result := some false }, r.2)
  | ClaimPc.beforeStore => ({ pc := ClaimPc.done, result := some true }, true)
  | ClaimPc.done => (th, active)

/-- The shared slot flag plus the two competing claim attempts. -/
structure ClaimSystem where
  active : Bool
  t1 : ClaimThread
  t2 : ClaimThread
deriving DecidableEq

/-- Execute one scheduled step: `true` steps thread 1, `false` thread 2. -/
def ClaimSystem.step (s : ClaimSystem) (who : Bool) : ClaimSystem :=
  if who then
    let r := s.t1.step s.active
    { s with t1 := r.1, active := r.2 }
  else
    let r := s.t2.step s.active
    { s with t2 := r.1, active := r.2 }

/-- Execute a schedule (a list of thread choices). -/
def ClaimSystem.run (s : ClaimSystem) (sched : List Bool) : ClaimSystem :=
  sched.foldl ClaimSystem.step s

/-- Both threads poised to claim the same inactive slot. -/
def initClaimSystem : ClaimSystem :=
  ⟨false, ⟨ClaimPc.beforeCas, none⟩, ⟨ClaimPc.beforeCas, none⟩⟩

/-- Claim C7 is violated by the code: under the overlapped schedule
(T1 CAS, T2 CAS, T1 store, T2 store) BOTH claim attempts succeed, because
a successful `compare_exchange_strong(false, false)` leaves `active`
false and so does not exclude the other claimer; only under a serialized
schedule (T1 CAS, T1 store, T2 CAS) does exactly one attempt succeed. -/
theorem cas_claim_not_exclusive :
    ((initClaimSystem.run [true, false, true, false]).t1.result = some true ∧
      (initClaimSystem.run [true, false, true, false]).t2.result
        = some true) ∧
    ((initClaimSystem.run [true, true, false, false]).t1.result = some true ∧
      (initClaimSystem.run [true, true, false, false]).t2.result
        = some false) := by decide

/-! ### Claim C5: applying an L2 message to the store -/

theorem length_take_append_replicate (c : Nat) (l : List PriceLevel)
    (hl : l.length = 5) (hc : c ≤ 5) :
    (l.take c ++ List.replicate (5 - c) PriceLevel.zero).length = 5 := by
  simp [List.length_take, hl]
  omega

theorem update_side_getD_lt (l : List PriceLevel) (n j : Nat)
    (hl : l.length = 5) (hj : j < min n 5) :
    (update_order_book_side l n).levels.getD j PriceLevel.zero
      = l.getD j PriceLevel.zero := by
  have hlen1 : (l.take (min n 5)).length = min n 5 := by
    simp [List.length_take, hl]
  simp only [update_order_book_side, List.getD_eq_getElem?_getD]
  rw [List.getElem?_append, hlen1, if_pos hj]
  rw [List.getElem?_take_of_lt hj]

theorem update_side_getD_ge (l : List PriceLevel) (n j : Nat)
    (hl : l.length = 5) (hj1 : min n 5 ≤ j) (hj2 : j < 5) :
    (update_order_book_side l n).levels.getD j PriceLevel.zero
      = PriceLevel.zero := by
  have hlen1 : (l.take (min n 5)).length = min n 5 := by
    simp [List.length_take, hl]
  simp only [update_order_book_side, List.getD_eq_getElem?_getD]
  rw [List.getElem?_append_right (by rw [hlen1]; exact hj1)]
  rw [hlen1, List.getElem?_replicate]
  have hlt : j - min n 5 < 5 - min n 5 := by omega
  simp [hlt]

/-- Claim C5: `update_from_l2(m)` returns false (and leaves the store
unchanged) when no active slot matches `m.security_id`.  When slot `i`
matches, it returns true and replaces slot `i` by a slot whose `best_bid`
is `m.bids[0].price` iff `m.num_bid_levels > 0` (unchanged otherwise),
whose `num_bid_levels` is `min(m.num_bid_levels, 5)`, and whose five-entry
bid array holds the first `min(m.num_bid_levels, 5)` message levels
followed by zeroed entries — symmetrically for the ask side. -/
theorem update_from_l2_spec (st : SecurityStore) (m : MarketDataL2Message)
    (hb : m.bids.length = 5) (ha : m.asks.length = 5) :
    (find_security_data st.securities m.security_id = none →
      st.update_from_l2 m = (false, st)) ∧
    (∀ i, find_security_data st.securities m.security_id = some i →
      (st.update_from_l2 m).1 = true ∧
      ∃ s2, (st.update_from_l2 m).2.securities = st.securities.set i s2 ∧
        (s2.best_bid = if 0 < m.num_bid_levels
          then (m.bids.getD 0 PriceLevel.zero).price
          else (st.securities.getD i SecurityData.mk0).best_bid) ∧
        (s2.best_ask = if 0 < m.num_ask_levels
          then (m.asks.getD 0 PriceLevel.zero).price
          else (st.securities.getD i SecurityData.mk0).best_ask) ∧
        s2.bids.num_levels = min m.num_bid_levels 5 ∧
        s2.asks.num_levels = min m.num_ask_levels 5 ∧
        s2.bids.levels.length = 5 ∧
        s2.asks.levels.length = 5 ∧
        (∀ j, j < min m.num_bid_levels 5 →
          s2.bids.levels.getD j PriceLevel.zero
            = m.bids.getD j PriceLevel.zero) ∧
        (∀ j, min m.num_bid_levels 5 ≤ j → j < 5 →
          s2.bids.levels.getD j PriceLevel.zero = PriceLevel.zero) ∧
        (∀ j, j < min m.num_ask_levels 5 →
          s2.asks.levels.getD j PriceLevel.zero
            = m.asks.getD j PriceLevel.zero) ∧
        (∀ j, min m.num_ask_levels 5 ≤ j → j < 5 →
          s2.asks.levels.getD j PriceLevel.zero = PriceLevel.zero)) := by
  constructor
  · intro hnone
    rw [SecurityStore.update_from_l2, hnone]
  · intro i hfind
    rw [SecurityStore.update_from_l2, hfind]
    refine ⟨rfl, ?_⟩
    refine ⟨_, rfl, ?_, ?_, rfl, rfl, ?_, ?_, ?_, ?_, ?_, ?_⟩
    · by_cases hbl : 0 < m.num_bid_levels <;>
        by_cases hal : 0 < m.num_ask_levels <;>
        simp [hbl, hal]
    · by_cases hbl : 0 < m.num_bid_levels <;>
        by_cases hal : 0 < m.num_ask_levels <;>
        simp [hbl, hal]
    · exact length_take_append_replicate _ _ hb (Nat.min_le_right _ _)
    · exact length_take_append_replicate _ _ ha (Nat.min_le_right _ _)
    · intro j hj
      exact update_side_getD_lt m.bids m.num_bid_levels j hb hj
    · intro j hj1 hj2
      exact update_side_getD_ge m.bids m.num_bid_levels j hb hj1 hj2
    · intro j hj
      exact update_side_getD_lt m.asks m.num_ask_levels j ha hj
    · intro j hj1 hj2
      exact update_side_getD_ge m.asks m.num_ask_levels j ha hj1 hj2

/-- One-active-slot store used to witness C5. -/
def updStoreW : SecurityStore :=
  ⟨[{ SecurityData.mk0 with
      active := true,
      security_id := [1, 0, 0, 0, 0, 0, 0, 0] }], 1⟩

/-- Message with three bid levels and no ask levels, matching the single
security of `updStoreW`. -/
def msgW : MarketDataL2Message :=
  { header := ⟨0, 192, 1⟩,
    security_id := [1, 0, 0, 0, 0, 0, 0, 0],
    timestamp_ns := 100,
    bids := [⟨1750000, 1000⟩, ⟨1749900, 500⟩, ⟨1749800, 200⟩,
             PriceLevel.zero, PriceLevel.zero],
    asks := [⟨1750500, 800⟩, ⟨1750600, 300⟩, ⟨1750700, 100⟩,
             PriceLevel.zero, PriceLevel.zero],
    num_bid_levels := 3,
    num_ask_levels := 0 }

/-- Witness for C5: the message applies successfully to the matching
store. -/
theorem update_from_l2_spec_witness :
    msgW.bids.length = 5 ∧ msgW.asks.length = 5 ∧
    find_security_data updStoreW.securities msgW.security_id = some 0 ∧
    (updStoreW.update_from_l2 msgW).1 = true := by
  have h := update_from_l2_spec updStoreW msgW (by decide) (by decide)
  exact ⟨by decide, by decide, by decide, (h.2 0 (by decide)).1⟩

/-! ### Random provider slot table and the feed coordinator -/

/-- Byte values of a string literal, for the preset symbol table. -/
def strBytes (str : String) : List Nat := str.toList.map Char.toNat

/-- Base prices of `SecuritySeeder::get_equity_info`
(security_seeder.hpp:32-55).  The code stores doubles; all presets are
integral dollar amounts, represented exactly here as rationals. -/
def equity_base_prices : List (List Nat × Rat) :=
  [(strBytes "AAPL", 175), (strBytes "MSFT", 350), (strBytes "GOOGL", 2800),
   (strBytes "AMZN", 3200), (strBytes "TSLA", 250), (strBytes "META", 320),
   (strBytes "NVDA", 450), (strBytes "JPM", 145), (strBytes "JNJ", 165),
   (strBytes "V", 240), (strBytes "PG", 140), (strBytes "UNH", 520),
   (strBytes "HD", 330), (strBytes "MA", 380), (strBytes "BAC", 32),
   (strBytes "XOM", 110), (strBytes "DIS", 95), (strBytes "ADBE", 480),
   (strBytes "CRM", 220), (strBytes "NFLX", 450)]

/-- `SecuritySeeder::get_base_price` (security_seeder.hpp:63-68). -/
def get_base_price (symbol : List Nat) (default_price : Rat) : Rat :=
  match equity_base_prices.find? (fun p => p.1 == symbol) with
  | some p => p.2
  | none => default_price

/-- Seed computation of `SecuritySlot::initialize`
(random_market_data_provider.hpp:158-163): fold of
`seed ^= uint32(id[i]) << (i % 4 * 8)` over the ASCII id bytes, in 32-bit
unsigned arithmetic. -/
def seed_of_id (id : SecurityId) : Nat :=
  id.enum.foldl (fun seed p => seed ^^^ ((p.2 <<< (p.1 % 4 * 8)) % 2 ^ 32)) 0

/-- `RandomMarketDataProvider::SecuritySlot`
(random_market_data_provider.hpp:138-182), with the `mt19937` engine
represented by the seed it was seeded with. -/
structure ProviderSlot where
  active : Bool
  security_id : SecurityId
  current_price : Rat
  last_update_ns : Nat
  rng_seed : Nat
deriving DecidableEq

/-- A default-constructed provider slot. -/
def ProviderSlot.mk0 : ProviderSlot :=
  { active := false, security_id := List.replicate 8 0, current_price := 0,
    last_update_ns := 0, rng_seed := 0 }

/-- `SecuritySlot::initialize` (random_market_data_provider.hpp:153-167):
store id, base price and the id-derived PRNG seed, then publish
`active = true`. -/
def ProviderSlot.initialize_slot (s : ProviderSlot) (id : SecurityId)
    (base_price : Rat) : ProviderSlot :=
  { s with security_id := id, current_price := base_price,
           last_update_ns := 0, rng_seed := seed_of_id id, active := true }

/-- `SecuritySlot::deactivate`. -/
def ProviderSlot.deactivate (s : ProviderSlot) : ProviderSlot :=
  { s with active := false }

/-- `SecuritySlot::matches`. -/
def ProviderSlot.matches (s : ProviderSlot) (id : SecurityId) : Bool :=
  s.active && s.security_id == id

/-- `RandomMarketDataProvider::find_security_slot`
(random_market_data_provider.hpp:193-199). -/
def find_security_slot (l : List ProviderSlot) (id : SecurityId) :
    Option Nat :=
  match l with
  | [] => none
  | s :: rest =>
    if s.matches id then some 0
    else (find_security_slot rest id).map (· + 1)

/-- First inactive provider slot — the slot whose claim CAS succeeds first
in the scan of `subscribe` (random_market_data_provider.hpp:91-103). -/
def find_inactive_slot (l : List ProviderSlot) : Option Nat :=
  match l with
  | [] => none
  | s :: rest =>
    if s.active then (find_inactive_slot rest).map (· + 1) else some 0

/-- The provider: its configured fallback base price and its slot table
(256 slots in the real provider). -/
structure RandomProvider where
  config_base_price : Rat
  securities : List ProviderSlot
  active_count : Nat
deriving DecidableEq

/-- `get_security_base_price` (random_market_data_provider.hpp:185-188). -/
def RandomProvider.security_base_price (pv : RandomProvider)
    (id : SecurityId) : Rat :=
  get_base_price (security_id_to_string id) pv.config_base_price

/-- `RandomMarketDataProvider::subscribe`
(random_market_data_provider.hpp:84-106). -/
def RandomProvider.subscribe (pv : RandomProvider) (id : SecurityId) :
    Bool × RandomProvider :=
  if (find_security_slot pv.securities id).isSome then (false, pv)
  else
    match find_inactive_slot pv.securities with
    | some i =>
      (true,
        { pv with
          securities := pv.securities.set i
            (ProviderSlot.initialize_slot
              (pv.securities.getD i ProviderSlot.mk0) id
              (pv.security_base_price id)),
          active_count := pv.active_count + 1 })
    | none => (false, pv)

/-- `RandomMarketDataProvider::unsubscribe`
(random_market_data_provider.hpp:108-117). -/
def RandomProvider.unsubscribe (pv : RandomProvider) (id : SecurityId) :
    Bool × RandomProvider :=
  match find_security_slot pv.securities id with
  | none => (false, pv)
  | some i =>
    (true,
      { pv with
        securities := pv.securities.set i
          (ProviderSlot.deactivate (pv.securities.getD i ProviderSlot.mk0)),
        active_count := pv.active_count - 1 })

/-- `MarketDataFeed::subscribe` (market_data_feed.hpp:164-178): add to the
store first; if that fails return false; then subscribe on the provider;
if that fails, remove the id from the store again and return false. -/
def MarketDataFeed.subscribe (store : SecurityStore) (pv : RandomProvider)
    (id : SecurityId) : Bool × SecurityStore × RandomProvider :=
  let r1 := store.add_security id
  if !r1.1 then (false, r1.2, pv)
  else
    let r2 := pv.subscribe id
    if !r2.1 then
      let r3 := r1.2.remove_security id
      (false, r3.2, r2.2)
    else (true, r1.2, r2.2)

/-! ### Claim C9: feed subscribe rolls back on partial failure -/

theorem add_security_false_frame {st : SecurityStore} {id : SecurityId}
    (h : (st.add_security id).1 = false) : (st.add_security id).2 = st := by
  rw [SecurityStore.add_security] at h ⊢
  by_cases hf : (find_security_data st.securities id).isSome = true
  · simp [hf]
  · cases hin : find_inactive st.securities with
    | none => simp [hf, hin]
    | some i =>
      rw [if_neg (by simpa using hf), hin] at h
      simp at h

theorem add_security_true_elim {st : SecurityStore} {id : SecurityId}
    (h : (st.add_security id).1 = true) :
    find_security_data st.securities id = none ∧
    ∃ i, find_inactive st.securities = some i ∧ i < st.securities.length ∧
      (st.add_security id).2
        = { securities := st.securities.set i
              (SecurityData.initialize_slot
                (st.securities.getD i SecurityData.mk0) id),
            active_count := st.active_count + 1 } := by
  by_cases hf : (find_security_data st.securities id).isSome = true
  · rw [SecurityStore.add_security] at h
    simp [hf] at h
  · have hnone : find_security_data st.securities id = none :=
      Option.not_isSome_iff_eq_none.mp hf
    cases hin : find_inactive st.securities with
    | none =>
      rw [SecurityStore.add_security] at h
      simp [hf, hin] at h
    | some i =>
      obtain ⟨hi, -⟩ := find_inactive_some hin
      refine ⟨hnone, i, rfl, hi, ?_⟩
      rw [SecurityStore.add_security]
      simp [hf, hin]

/-- Claim C9: `MarketDataFeed::subscribe` adds to the store first, returns
false when that fails, and when the provider subscription fails it removes
the id from the store again; consequently whenever it returns false the
store membership of `id` is the same as before the call, and it returns
true iff both the store addition and the provider subscription succeed. -/
theorem feed_subscribe_spec (store : SecurityStore) (pv : RandomProvider)
    (id : SecurityId) :
    ((MarketDataFeed.subscribe store pv id).1 = false →
      (MarketDataFeed.subscribe store pv id).2.1.contains id
        = store.contains id) ∧
    ((MarketDataFeed.subscribe store pv id).1 = true ↔
      (store.add_security id).1 = true ∧ (pv.subscribe id).1 = true) := by
  cases hadd : (store.add_security id).1 with
  | false =>
    have hframe := add_security_false_frame hadd
    have hfeed : MarketDataFeed.subscribe store pv id = (false, store, pv) := by
      rw [MarketDataFeed.subscribe]
      simp [hadd, hframe]
    rw [hfeed]
    exact ⟨fun _ => rfl, by simp [hadd]⟩
  | true =>
    cases hsub : (pv.subscribe id).1 with
    | true =>
      have hfeed : MarketDataFeed.subscribe store pv id
          = (true, (store.add_security id).2, (pv.subscribe id).2) := by
        rw [MarketDataFeed.subscribe]
        simp [hadd, hsub]
      rw [hfeed]
      exact ⟨fun hc => absurd hc (by simp), by simp [hadd, hsub]⟩
    | false =>
      obtain ⟨hnone, i, hin, hi, hres⟩ := add_security_true_elim hadd
      have hfeed : MarketDataFeed.subscribe store pv id
          = (false, ((store.add_security id).2.remove_security id).2,
              (pv.subscribe id).2) := by
        rw [MarketDataFeed.subscribe]
        simp [hadd, hsub]
      rw [hfeed]
      refine ⟨fun _ => ?_, by simp [hadd, hsub]⟩
      have hcs : store.contains id = false := by
        simp [SecurityStore.contains, hnone]
      rw [hcs]
      have hm1 : (SecurityData.initialize_slot
          (store.securities.getD i SecurityData.mk0) id).matches id
          = true := by
        simp [SecurityData.matches, SecurityData.initialize_slot]
      have hfind1 : find_security_data
          (store.securities.set i
            (SecurityData.initialize_slot
              (store.securities.getD i SecurityData.mk0) id)) id
          = some i := find_security_data_set_self hnone hm1 hi
      have hrem : ((store.add_security id).2.remove_security id).2.securities
          = (store.securities.set i
              (SecurityData.initialize_slot
                (store.securities.getD i SecurityData.mk0) id)).set i
              (SecurityData.deactivate
                ((store.securities.set i
                  (SecurityData.initialize_slot
                    (store.securities.getD i SecurityData.mk0) id)).getD i
                  SecurityData.mk0)) := by
        rw [hres, SecurityStore.remove_security]
        simp only [hfind1]
      rw [SecurityStore.contains, hrem]
      have hgd : ((store.securities.set i
          (SecurityData.initialize_slot
            (store.securities.getD i SecurityData.mk0) id)).getD i
          SecurityData.mk0)
          = SecurityData.initialize_slot
              (store.securities.getD i SecurityData.mk0) id :=
        getD_set_self_gen _ _ (by simpa using hi)
      rw [hgd, List.set_set]
      have hmiss : (SecurityData.deactivate
          (SecurityData.initialize_slot
            (store.securities.getD i SecurityData.mk0) id)).matches id
          = false := by
        simp [SecurityData.matches, SecurityData.deactivate]
      rw [find_security_data_set_miss hnone hmiss]
      rfl

/-- One-empty-slot store for the C9 witness. -/
def feedStoreW : SecurityStore := ⟨[SecurityData.mk0], 0⟩

/-- Provider whose single slot is already taken by a different id, so its
`subscribe` fails and the feed must roll back the store addition. -/
def pvFullW : RandomProvider :=
  ⟨150,
   [{ ProviderSlot.mk0 with
      active := true,
      security_id := [2, 0, 0, 0, 0, 0, 0, 0] }], 1⟩

/-- Witness for C9: the provider-failure path returns false and leaves the
store membership of the id as before. -/
theorem feed_subscribe_spec_witness :
    (MarketDataFeed.subscribe feedStoreW pvFullW
        [1, 0, 0, 0, 0, 0, 0, 0]).1 = false ∧
    (MarketDataFeed.subscribe feedStoreW pvFullW
        [1, 0, 0, 0, 0, 0, 0, 0]).2.1.contains [1, 0, 0, 0, 0, 0, 0, 0]
      = feedStoreW.contains [1, 0, 0, 0, 0, 0, 0, 0] := by
  have h := feed_subscribe_spec feedStoreW pvFullW [1, 0, 0, 0, 0, 0, 0, 0]
  have hfp : (MarketDataFeed.subscribe feedStoreW pvFullW
      [1, 0, 0, 0, 0, 0, 0, 0]).1 = false := by
    rcases Bool.eq_false_or_eq_true (MarketDataFeed.subscribe feedStoreW
      pvFullW [1, 0, 0, 0, 0, 0, 0, 0]).1 with ht | hf
    · exact absurd (h.2.mp ht).2 (by decide)
    · exact hf
  exact ⟨hfp, h.1 hfp⟩

end MiniMart
